import Mathlib

/-!
Verification of the `camina` mapping module (`src/camina/mapping.py`).

The development shallowly embeds the keyed-container family: `Dictionary`,
`Catalog`, `ChainDictionary` and `Repository`.  Python values are modelled in
two levels: `PAtom` for the scalar values the module inspects (`None`,
strings, integers, named objects) and `PVal`, which also covers lists and
tuples of such scalars — the shapes exercised by the module's key handling
(wildcard alias lists, batch key sequences, batch value sequences).  A Python
`dict` is modelled as an insertion-ordered association list with unique keys
(`PDict`), mutated only through `pdictSet`, which replaces in place or
appends, exactly like CPython dict assignment.  Lookups that may build a
fresh Python list of stored values return a `PRes`; exceptions are modelled
with `Except PyErr`.
-/

namespace Camina

/-- Scalar Python values, as far as the mapping module inspects them: `None`,
strings, integers, and objects carrying a `name` attribute (the dataclass
instances used with `Repository`). -/
inductive PAtom : Type where
  | anone : PAtom
  | astr : String → PAtom
  | aint : Int → PAtom
  | aobj : String → PAtom
  deriving DecidableEq, Repr

/-- Python values handled by the mapping module: a scalar, a list of scalars,
or a tuple of scalars. -/
inductive PVal : Type where
  | atom : PAtom → PVal
  | plist : List PAtom → PVal
  | ptup : List PAtom → PVal
  deriving DecidableEq, Repr

/-- Shorthand for a Python string value. -/
def PVal.str (s : String) : PVal := .atom (.astr s)

/-- Shorthand for a Python integer value. -/
def PVal.int (n : Int) : PVal := .atom (.aint n)

/-- Shorthand for a Python object with a `name` attribute. -/
def PVal.obj (n : String) : PVal := .atom (.aobj n)

/-- Shorthand for the Python `None` value. -/
def PVal.none : PVal := .atom .anone

/-- Python exceptions raised by the mapping module. -/
inductive PyErr : Type where
  | keyError : PyErr
  | typeError : PyErr
  | valueError : PyErr
  | recursionError : PyErr
  deriving DecidableEq, Repr

/-- Result of a lookup: either a stored value returned as-is, or a freshly
built Python list of stored values (the wildcard, batch, and multi-match
cases). -/
inductive PRes : Type where
  | val : PVal → PRes
  | vlist : List PVal → PRes
  deriving DecidableEq, Repr

/-- A Python dict: insertion-ordered association list with unique keys. -/
abbrev PDict := List (PVal × PVal)

/-- Lookup, `d[k]` read access: first binding whose key equals `k`. -/
def pdictGet? : PDict → PVal → Option PVal
  | [], _ => Option.none
  | kv :: rest, k => if kv.1 = k then some kv.2 else pdictGet? rest k

/-- Assignment `d[k] = v`: replace in place if the key is present, otherwise
append, preserving CPython's insertion order. -/
def pdictSet (d : PDict) (k v : PVal) : PDict :=
  match d with
  | [] => [(k, v)]
  | kv :: rest => if kv.1 = k then (k, v) :: rest else kv :: pdictSet rest k v

/-- Keys of the dict, in insertion order (`tuple(d.keys())`). -/
def pdictKeys (d : PDict) : List PVal :=
  d.map Prod.fst

/-- Values of the dict, in insertion order (`tuple(d.values())`). -/
def pdictValues (d : PDict) : List PVal :=
  d.map Prod.snd

/-- What Python stores in `default_factory`: nothing (`None`), a zero-argument
callable producing a value, or a plain non-callable value. -/
inductive DFactory : Type where
  | dnone : DFactory
  | dcallable : PVal → DFactory
  | dvalue : PVal → DFactory
  deriving DecidableEq, Repr

/-- Model of `try: return self.default_factory() except TypeError: return
self.default_factory` (mapping.py, `Dictionary.get` and the Catalog none-key
branch): a callable is invoked, a plain value raises `TypeError` when called
and is returned as a literal; `None` yields no fallback. -/
def DFactory.resolve : DFactory → Option PVal
  | .dnone => none
  | .dcallable r => some r
  | .dvalue v => some v

/-- Modelled from the spec: `convert.iterify` is imported by `mapping.py` but
its source is not under `src/`.  Per the spec (sections 4.1 and 9), the
`include`/`exclude`/`delete` arguments are either a single key or an explicit
sequence of keys; `iterify` yields the sequence of keys, a lone scalar
becoming a one-element sequence. -/
def iterify : PVal → List PVal
  | .plist xs => xs.map PVal.atom
  | .ptup xs => xs.map PVal.atom
  | v => [v]

/-- Python hashability of the modelled values: lists are unhashable; scalars,
and tuples of scalars, are hashable. -/
def hashable : PVal → Bool
  | .plist _ => false
  | _ => true

/-- Iteration of a Python value, as consumed by `zip`: lists and tuples yield
their elements, a string yields its one-character substrings, other modelled
values are not iterable (`TypeError`). -/
def pyIter : PVal → Option (List PVal)
  | .plist xs => some (xs.map PVal.atom)
  | .ptup xs => some (xs.map PVal.atom)
  | .atom (.astr s) => some (s.toList.map fun ch => PVal.str (String.mk [ch]))
  | _ => none

/-- Embedding of `camina.mapping.Dictionary` (mapping.py lines 39-241):
`contents` plus the defaultdict-style `default_factory`. -/
structure Dictionary : Type where
  contents : PDict := []
  default_factory : DFactory := .dnone
  deriving DecidableEq, Repr

/-- Embedding of `Dictionary.__getitem__`: `return self.contents[key]`. -/
def Dictionary.getitem (m : Dictionary) (key : PVal) : Except PyErr PVal :=
  match pdictGet? m.contents key with
  | some v => .ok v
  | none => .error .keyError

/-- Embedding of `Dictionary.keys`: `tuple(self.contents.keys())`. -/
def Dictionary.keys (m : Dictionary) : List PVal :=
  pdictKeys m.contents

/-- Embedding of `Dictionary.values`: `tuple(self.contents.values())`. -/
def Dictionary.values (m : Dictionary) : List PVal :=
  pdictValues m.contents

/-- Embedding of `Dictionary.get` (mapping.py lines 110-138).  The Python
parameter `default` defaults to `None`; the code tests `default is None` to
decide whether to fall back to `default_factory`, so an explicitly supplied
`None` is indistinguishable from an omitted default. -/
def Dictionary.get (m : Dictionary) (key : PVal)
    (default : PVal := .none) : Except PyErr PVal :=
  match pdictGet? m.contents key with
  | some v => .ok v
  | none =>
    if default = .none then
      match m.default_factory.resolve with
      | some v => .ok v
      | none => .error .keyError
    else
      .ok default

/-- Helper for the `include` branch of `Dictionary.subset`: the dict
comprehension `{k: self.contents[k] for k in include}`, which raises
`KeyError` at the first key absent from `contents`. -/
def includeBuild (d : PDict) (ks : List PVal) (acc : PDict) :
    Except PyErr PDict :=
  match ks with
  | [] => .ok acc
  | k :: rest =>
    match pdictGet? d k with
    | some v => includeBuild d rest (pdictSet acc k v)
    | none => .error .keyError

/-- Embedding of `Dictionary.subset` (mapping.py lines 169-207).  `copy.deepcopy`
on the purely structural values of the model is the identity, so the
`include is None` branch keeps `contents` as is; the result carries the
original configuration (`default_factory`) with the new `contents`. -/
def Dictionary.subset (m : Dictionary) (incl excl : Option PVal) :
    Except PyErr Dictionary :=
  if incl = Option.none ∧ excl = Option.none then
    .error .valueError
  else
    match (match incl with
           | Option.none => Except.ok m.contents
           | some i => includeBuild m.contents (iterify i) []) with
    | .error e => .error e
    | .ok base =>
      match excl with
      | Option.none => .ok { m with contents := base }
      | some e =>
        .ok { m with
              contents := base.filter fun kv => ! decide (kv.1 ∈ iterify e) }

/-- The `configuration._ALL_KEYS` alias list: `['all', 'All', ['all'], ['All']]`. -/
def ALL_KEYS : List PVal :=
  [.str "all", .str "All", .plist [.astr "all"], .plist [.astr "All"]]

/-- The `configuration._DEFAULT_KEYS` alias list: `['default', 'defaults',
'Default', 'Defaults', ['default'], ['defaults'], ['Default'], ['Defaults']]`. -/
def DEFAULT_KEYS : List PVal :=
  [.str "default", .str "defaults", .str "Default", .str "Defaults",
   .plist [.astr "default"], .plist [.astr "defaults"],
   .plist [.astr "Default"], .plist [.astr "Defaults"]]

/-- The `configuration._NONE_KEYS` alias list: `['none', 'None', ['none'], ['None']]`. -/
def NONE_KEYS : List PVal :=
  [.str "none", .str "None", .plist [.astr "none"], .plist [.astr "None"]]

/-- A key matching one of the three reserved wildcard alias lists. -/
def isWildcard (k : PVal) : Bool :=
  decide (k ∈ ALL_KEYS) || decide (k ∈ DEFAULT_KEYS) || decide (k ∈ NONE_KEYS)

/-- A scalar (atom) key, as opposed to a list or tuple of keys. -/
def isAtomKey : PVal → Bool
  | .atom _ => true
  | _ => false

/-- Embedding of `camina.mapping.Catalog` (mapping.py lines 244-372):
`contents`, `default_factory`, the `default` group (initially `'all'`) and the
`always_return_list` flag. -/
structure Catalog : Type where
  contents : PDict := []
  default_factory : DFactory := .dnone
  default : PVal := .str "all"
  always_return_list : Bool := false
  deriving DecidableEq, Repr

/-- Embedding of `Catalog.__getitem__` (mapping.py lines 310-354), with
explicit fuel for the `default`-key branch, which re-enters the method on
`self.default` (`return self[self.default]`) and does not terminate in Python
when the default group is itself a default alias (`RecursionError`). -/
def Catalog.getitemAux : Nat → Catalog → PVal → Except PyErr PRes
  | 0, _, _ => .error .recursionError
  | fuel + 1, c, key =>
    if key ∈ ALL_KEYS then
      .ok (.vlist (pdictValues c.contents))
    else if key ∈ DEFAULT_KEYS then
      Catalog.getitemAux fuel c c.default
    else if key ∈ NONE_KEYS then
      match c.default_factory.resolve with
      | some v => .ok (.val v)
      | Option.none =>
        if c.always_return_list then .ok (.vlist []) else .ok (.val .none)
    else
      match key with
      | .plist ks =>
        .ok (.vlist (ks.filterMap fun k => pdictGet? c.contents (.atom k)))
      | .ptup ks =>
        .ok (.vlist (ks.filterMap fun k => pdictGet? c.contents (.atom k)))
      | _ =>
        match pdictGet? c.contents key with
        | some v =>
          if c.always_return_list then .ok (.vlist [v]) else .ok (.val v)
        | Option.none => .error .keyError

/-- Embedding of `Catalog.__getitem__`, with enough fuel for any default
group that is not itself a default alias. -/
def Catalog.getitem (c : Catalog) (key : PVal) : Except PyErr PRes :=
  Catalog.getitemAux 8 c key

/-- Membership test `k in self` as Python resolves it for a Catalog:
`Mapping.__contains__` calls `self[key]` and catches only `KeyError`.  Other
exceptions would propagate; they are surfaced here in the error component. -/
def Catalog.containsCheck (c : Catalog) (key : PVal) : Except PyErr Bool :=
  match c.getitem key with
  | .ok _ => .ok true
  | .error .keyError => .ok false
  | .error e => .error e

/-- Model of `all(k in self for k in keys)` inside `Catalog.delete`:
short-circuits at the first missing key. -/
def Catalog.allContains (c : Catalog) : List PVal → Except PyErr Bool
  | [] => .ok true
  | k :: rest =>
    match c.containsCheck k with
    | .error e => .error e
    | .ok false => .ok false
    | .ok true => Catalog.allContains c rest

/-- Embedding of `Catalog.delete` (mapping.py lines 292-306): iterify the
argument, check every key through the wildcard-aware `in`, then rebuild
`contents` dropping the given keys; raise `KeyError` if the check fails.
The rebuild `{i: self.contents[i] for i in self.contents if i not in keys}`
is a filter over the uniquely-keyed bindings. -/
def Catalog.delete (c : Catalog) (item : PVal) : Except PyErr Catalog :=
  match c.allContains (iterify item) with
  | .error e => .error e
  | .ok false => .error .keyError
  | .ok true =>
    .ok { c with
          contents := c.contents.filter fun kv => ! decide (kv.1 ∈ iterify item) }

/-- Embedding of `Catalog.__setitem__` (mapping.py lines 356-372):
`self.contents[key] = value` succeeds for any hashable key; an unhashable key
raises `TypeError`, caught to run `self.contents.update(dict(zip(key, value)))`.
`zip` truncates to the shorter of the two sequences; building the dict and
merging it equals setting the zipped pairs left to right. -/
def Catalog.setitem (c : Catalog) (key value : PVal) : Except PyErr Catalog :=
  if hashable key then
    .ok { c with contents := pdictSet c.contents key value }
  else
    match pyIter key, pyIter value with
    | some ks, some vs =>
      .ok { c with
            contents := (ks.zip vs).foldl (fun d kv => pdictSet d kv.1 kv.2)
              c.contents }
    | _, _ => .error .typeError

/-- Embedding of `camina.mapping.ChainDictionary` (mapping.py lines 375-623):
an ordered list of `Dictionary` layers, the defaultdict-style
`default_factory`, and the `return_first` flag (default `True`). -/
structure ChainDictionary : Type where
  contents : List Dictionary := []
  default_factory : DFactory := .dnone
  return_first : Bool := true
  deriving DecidableEq, Repr

/-- Embedding of `ChainDictionary.__getitem__` (mapping.py lines 579-606):
scan the layers, collecting each layer's value for the key.  With
`return_first` the first match is returned as soon as found.  Otherwise the
code raises `KeyError` on no match, returns `matches[0]` (a bare value) when
there is more than one match, and returns `matches` (a one-element list) when
there is exactly one. -/
def ChainDictionary.getitem (cd : ChainDictionary) (key : PVal) :
    Except PyErr PRes :=
  let found := cd.contents.filterMap fun d => pdictGet? d.contents key
  if cd.return_first then
    match found with
    | [] => .error .keyError
    | v :: _ => .ok (.val v)
  else
    match found with
    | [] => .error .keyError
    | [v] => .ok (.vlist [v])
    | v :: _ :: _ => .ok (.val v)

/-- Embedding of `ChainDictionary.keys` (mapping.py lines 493-501):
concatenation of the per-layer key tuples, in layer order. -/
def ChainDictionary.keys (cd : ChainDictionary) : List PVal :=
  (cd.contents.map Dictionary.keys).flatten

/-- Embedding of `ChainDictionary.values` (mapping.py lines 567-575):
concatenation of the per-layer value tuples, in layer order. -/
def ChainDictionary.values (cd : ChainDictionary) : List PVal :=
  (cd.contents.map Dictionary.values).flatten

/-- Embedding of `ChainDictionary.new_child` (mapping.py lines 503-514):
`self.contents.insert(0, m)`. -/
def ChainDictionary.new_child (cd : ChainDictionary) (m : Dictionary) :
    ChainDictionary :=
  { cd with contents := m :: cd.contents }

/-- Embedding of `ChainDictionary.parents` (mapping.py lines 516-528):
`self.__class__(self.contents[1:], default_factory=self.default_factory)`.
The slice shares the layer objects; `return_first` is not passed and takes
its default `True`. -/
def ChainDictionary.parents (cd : ChainDictionary) : ChainDictionary :=
  { contents := cd.contents.drop 1,
    default_factory := cd.default_factory,
    return_first := true }

/-- Embedding of `camina.mapping.Repository` (mapping.py lines 626-690):
`contents`, `default_factory` and the `overwrite` flag (default `False`). -/
structure Repository : Type where
  contents : PDict := []
  default_factory : DFactory := .dnone
  overwrite : Bool := false
  deriving DecidableEq, Repr

/-- Embedding of `label.namify` (label.py lines 19-45) on the modelled
values: a string names itself; a non-class instance with a string `name`
attribute is named by it.  The remaining branch of `namify` snakifies the
class name via `modify.snakify`, whose source is not under `src/`; it is not
exercised by the claims and is modelled by a fixed class-style name. -/
def namify : PVal → String
  | .atom (.astr s) => s
  | .atom (.aobj n) => n
  | _ => "object"

/-- Builds the suffixed candidate `f'{key}_{counter}'`. -/
def suffixKey (key : String) (counter : Nat) : String :=
  key ++ "_" ++ toString counter

/-- Modelled from the spec: `modify.uniquify` is imported by `mapping.py` but
its source is not under `src/`.  Per the spec (section 4.5), if the key
collides with an existing key, an increasing integer suffix (`key_2`,
`key_3`, ...) is appended until a free key is found.  The search is bounded
by the dict size plus one, which always suffices: the candidates outnumber
the stored keys. -/
def uniquify (key : String) (d : PDict) : String :=
  if (pdictGet? d (.str key)).isNone then
    key
  else
    match ((List.range (d.length + 1)).map fun i => suffixKey key (i + 2)).find?
        (fun c => (pdictGet? d (.str c)).isNone) with
    | some c => c
    | Option.none => suffixKey key (d.length + 3)

/-- The key under which `Repository.add` stores an item: the given key if
any, else the name derived with `namify` (`key = key or self._get_name(item)`),
run through `uniquify` against the stored contents unless `overwrite` is
set. -/
def Repository.addKey (r : Repository) (item : PVal)
    (key : Option String) : String :=
  if r.overwrite then key.getD (namify item)
  else uniquify (key.getD (namify item)) r.contents

/-- Embedding of `Repository.add` (mapping.py lines 658-673): use the given
key or derive one with `namify`; when `overwrite` is false, uniquify the key
against the stored contents; then merge `{key: item}` into `contents`
(`self.contents.update({key: item})`). -/
def Repository.add (r : Repository) (item : PVal)
    (key : Option String := Option.none) : Repository :=
  { r with contents := pdictSet r.contents (.str (r.addKey item key)) item }

/-! Basic lemmas about the dict model. -/

/-- Setting a key makes it retrievable with the new value. -/
theorem pdictGet?_set_self (d : PDict) (k v : PVal) :
    pdictGet? (pdictSet d k v) k = some v := by
  induction d with
  | nil => simp [pdictSet, pdictGet?]
  | cons kv rest ih =>
    by_cases h : kv.1 = k
    · simp [pdictSet, h, pdictGet?]
    · simp [pdictSet, h, pdictGet?, ih]

/-- Setting a key leaves every other key's binding unchanged. -/
theorem pdictGet?_set_ne (d : PDict) (k v k' : PVal) (h : k' ≠ k) :
    pdictGet? (pdictSet d k v) k' = pdictGet? d k' := by
  induction d with
  | nil =>
    have hne : ¬ k = k' := fun he => h he.symm
    simp [pdictSet, pdictGet?, hne]
  | cons kv rest ih =>
    by_cases hk : kv.1 = k
    · subst hk
      have hne : ¬ kv.1 = k' := fun he => h he.symm
      simp [pdictSet, pdictGet?, hne]
    · simp [pdictSet, hk, pdictGet?, ih]

/-- A key is retrievable exactly when it occurs among the dict's keys. -/
theorem pdictGet?_isSome_iff (d : PDict) (k : PVal) :
    (pdictGet? d k).isSome ↔ k ∈ pdictKeys d := by
  induction d with
  | nil => simp [pdictGet?, pdictKeys]
  | cons kv rest ih =>
    by_cases h : kv.1 = k
    · simp [pdictGet?, pdictKeys, h]
    · have hne : ¬ k = kv.1 := fun he => h he.symm
      simpa [pdictGet?, pdictKeys, h, hne] using ih

/-- The keys after a set are the old keys together with the set key. -/
theorem pdictKeys_set_mem (d : PDict) (k v x : PVal) :
    x ∈ pdictKeys (pdictSet d k v) ↔ x ∈ pdictKeys d ∨ x = k := by
  induction d with
  | nil => simp [pdictSet, pdictKeys]
  | cons kv rest ih =>
    by_cases h : kv.1 = k
    · subst h
      simp [pdictSet, pdictKeys]
      tauto
    · simp only [pdictSet, if_neg h, pdictKeys, List.map_cons,
        List.mem_cons] at ih ⊢
      tauto

/-- Filtering out a set of keys removes exactly those bindings: a removed
key no longer resolves. -/
theorem pdictGet?_filter_mem (d : PDict) (ks : List PVal) (k : PVal)
    (h : k ∈ ks) :
    pdictGet? (d.filter fun kv => ! decide (kv.1 ∈ ks)) k = Option.none := by
  induction d with
  | nil => simp [pdictGet?]
  | cons kv rest ih =>
    rw [List.filter_cons]
    by_cases hm : kv.1 ∈ ks
    · simp [hm, ih]
    · have hne : ¬ kv.1 = k := fun he => hm (he ▸ h)
      simp [hm, pdictGet?, hne, ih]

/-- Filtering out a set of keys leaves every other key's binding unchanged. -/
theorem pdictGet?_filter_not_mem (d : PDict) (ks : List PVal) (k : PVal)
    (h : k ∉ ks) :
    pdictGet? (d.filter fun kv => ! decide (kv.1 ∈ ks)) k = pdictGet? d k := by
  induction d with
  | nil => simp
  | cons kv rest ih =>
    rw [List.filter_cons]
    by_cases hm : kv.1 ∈ ks
    · have hne : ¬ kv.1 = k := fun he => h (he ▸ hm)
      simp [hm, pdictGet?, hne, ih]
    · simp [hm, pdictGet?, ih]

/-- Membership in the keys of a filtered dict. -/
theorem pdictKeys_filter_mem (d : PDict) (ks : List PVal) (x : PVal) :
    x ∈ pdictKeys (d.filter fun kv => ! decide (kv.1 ∈ ks))
      ↔ x ∈ pdictKeys d ∧ x ∉ ks := by
  simp only [pdictKeys, List.mem_map, List.mem_filter]
  constructor
  · rintro ⟨kv, ⟨hkv, hp⟩, rfl⟩
    simp only [Bool.not_eq_eq_eq_not, Bool.not_true, decide_eq_false_iff_not] at hp
    exact ⟨⟨kv, hkv, rfl⟩, hp⟩
  · rintro ⟨⟨kv, hkv, rfl⟩, hx⟩
    exact ⟨kv, ⟨hkv, by simpa using hx⟩, rfl⟩

/-! Claim theorems. -/

/-- C1: evaluation of `ChainDictionary.__getitem__` at the inputs where the
code contradicts its own docstring.  With two layers both holding the key and
`return_first = False`, the method returns the first match as a bare value
rather than the list of all matches; with exactly one matching layer and
`return_first = False` it returns a one-element list rather than the bare
stored value; with `return_first = True` it returns the first match. -/
theorem chainDictionary_getitem_quirk_eval :
    ChainDictionary.getitem
        { contents := [{ contents := [(PVal.str "k", PVal.int 1)] },
                       { contents := [(PVal.str "k", PVal.int 2)] }],
          return_first := false } (PVal.str "k") = .ok (.val (PVal.int 1))
    ∧ ChainDictionary.getitem
        { contents := [{ contents := [(PVal.str "k", PVal.int 1)] }],
          return_first := false } (PVal.str "k") = .ok (.vlist [PVal.int 1])
    ∧ ChainDictionary.getitem
        { contents := [{ contents := [(PVal.str "k", PVal.int 1)] },
                       { contents := [(PVal.str "k", PVal.int 2)] }],
          return_first := true } (PVal.str "k") = .ok (.val (PVal.int 1)) :=
  ⟨rfl, rfl, rfl⟩

/-- C4 counterexample: `get` does not return every supplied default.  With
`default_factory` set, supplying the default `None` explicitly returns the
factory value, not the supplied `None`. -/
theorem dictionary_get_none_default_cex :
    Dictionary.get
        { contents := [], default_factory := .dvalue (PVal.str "Nada") }
        (PVal.str "f") PVal.none = .ok (PVal.str "Nada")
    ∧ PVal.str "Nada" ≠ PVal.none :=
  ⟨rfl, by decide⟩

/-- C4 (amended): for a key not in the mapping, `get` returns any supplied
default other than `None`; with default `None` (supplied or omitted), it
returns the `default_factory` result — the call result for a zero-argument
callable, the literal value otherwise — and fails with `KeyError` when no
factory is set. -/
theorem dictionary_get_amended (m : Dictionary) (k d : PVal)
    (hk : pdictGet? m.contents k = Option.none) :
    (d ≠ PVal.none → m.get k d = .ok d)
    ∧ (m.default_factory = .dnone → m.get k PVal.none = .error .keyError)
    ∧ (∀ r, m.default_factory = .dcallable r → m.get k PVal.none = .ok r)
    ∧ (∀ v, m.default_factory = .dvalue v → m.get k PVal.none = .ok v) := by
  refine ⟨fun hd => ?_, fun h => ?_, fun r h => ?_, fun v h => ?_⟩
  · simp [Dictionary.get, hk, hd]
  · simp [Dictionary.get, hk, h, DFactory.resolve]
  · simp [Dictionary.get, hk, h, DFactory.resolve]
  · simp [Dictionary.get, hk, h, DFactory.resolve]

/-- Witness for `dictionary_get_amended` at a concrete mapping, key and
default. -/
theorem dictionary_get_amended_witness :
    Dictionary.get
        { contents := [(PVal.str "a", PVal.int 1)],
          default_factory := .dvalue (PVal.str "Nada") }
        (PVal.str "z") (PVal.str "D") = .ok (PVal.str "D") :=
  (dictionary_get_amended _ (PVal.str "z") (PVal.str "D") (by decide)).1
    (by decide)

/-- C2 counterexample: a batch `__setitem__` with three keys and two values
does not fail; it silently assigns the two zipped pairs. -/
theorem catalog_setitem_mismatch_cex :
    Catalog.setitem {} (PVal.plist [.astr "a", .astr "b", .astr "c"])
        (PVal.plist [.aint 1, .aint 2])
      = .ok { contents := [(PVal.str "a", PVal.int 1),
                           (PVal.str "b", PVal.int 2)] } :=
  rfl

/-- C2 (amended): batch assignment through an unhashable key sequence zips
the keys pairwise with the values and assigns the zipped pairs left to
right; when the lengths differ no error is raised and exactly the pairs up
to the shorter of the two lengths are assigned (extra keys or values are
ignored); when the lengths match, all pairs are assigned. -/
theorem catalog_setitem_zip (c : Catalog) (ks : List PAtom) (v : PVal)
    (vs : List PVal) (hv : pyIter v = some vs) :
    c.setitem (.plist ks) v
      = .ok { c with
              contents := ((ks.map PVal.atom).zip vs).foldl
                (fun d kv => pdictSet d kv.1 kv.2) c.contents }
    ∧ ((ks.map PVal.atom).zip vs).length = min ks.length vs.length := by
  have hks : pyIter (PVal.plist ks) = some (ks.map PVal.atom) := rfl
  constructor
  · simp [Catalog.setitem, hashable, hks, hv]
  · simp

/-- Witness for `catalog_setitem_zip` at a concrete catalog, key list and
value list of equal length. -/
theorem catalog_setitem_zip_witness :
    Catalog.setitem {} (PVal.plist [.astr "x", .astr "y"])
        (PVal.plist [.aint 5, .aint 6])
      = .ok { contents := [(PVal.str "x", PVal.int 5),
                           (PVal.str "y", PVal.int 6)] } := by
  have h := (catalog_setitem_zip {} [.astr "x", .astr "y"]
      (PVal.plist [.aint 5, .aint 6]) [PVal.int 5, PVal.int 6] rfl).1
  exact h

/-- C9: `Catalog.__setitem__` dispatches on hashability, not on sequence
shape: any hashable key — in particular a tuple of several keys, or a
string — is stored directly as a single key; the pairwise zip assignment
happens only for an unhashable key such as a list. -/
theorem catalog_setitem_hashable_dispatch (c : Catalog) (k v : PVal) :
    (hashable k = true →
      c.setitem k v = .ok { c with contents := pdictSet c.contents k v })
    ∧ (∀ ts, k = PVal.ptup ts →
      c.setitem k v = .ok { c with contents := pdictSet c.contents k v })
    ∧ (∀ s, k = PVal.str s →
      c.setitem k v = .ok { c with contents := pdictSet c.contents k v })
    ∧ (∀ ks, k = PVal.plist ks → ∀ vs, pyIter v = some vs →
      c.setitem k v = .ok { c with
          contents := ((ks.map PVal.atom).zip vs).foldl
            (fun d kv => pdictSet d kv.1 kv.2) c.contents }) := by
  refine ⟨fun h => ?_, fun ts h => ?_, fun s h => ?_, fun ks h vs hv => ?_⟩
  · simp [Catalog.setitem, h]
  · subst h
    simp [Catalog.setitem, hashable]
  · subst h
    simp [Catalog.setitem, hashable, PVal.str]
  · subst h
    have hks : pyIter (PVal.plist ks) = some (ks.map PVal.atom) := rfl
    simp [Catalog.setitem, hashable, hks, hv]

/-- Witness for `catalog_setitem_hashable_dispatch`: a tuple of two keys is
stored as one single key. -/
theorem catalog_setitem_hashable_dispatch_witness :
    Catalog.setitem { contents := [(PVal.str "a", PVal.int 1)] }
        (PVal.ptup [.astr "p", .astr "q"]) (PVal.int 9)
      = .ok { contents := [(PVal.str "a", PVal.int 1),
                           (PVal.ptup [.astr "p", .astr "q"], PVal.int 9)] } := by
  have h := (catalog_setitem_hashable_dispatch
      { contents := [(PVal.str "a", PVal.int 1)] }
      (PVal.ptup [.astr "p", .astr "q"]) (PVal.int 9)).2.1
      [.astr "p", .astr "q"] rfl
  exact h

/-- When every requested key is present, the include comprehension succeeds
and the keys of its result are the accumulator's keys together with the
requested keys. -/
theorem includeBuild_keys (d : PDict) (ks : List PVal) (acc : PDict)
    (h : ∀ k ∈ ks, (pdictGet? d k).isSome) :
    ∃ res, includeBuild d ks acc = .ok res
      ∧ ∀ x, x ∈ pdictKeys res ↔ x ∈ pdictKeys acc ∨ x ∈ ks := by
  induction ks generalizing acc with
  | nil => exact ⟨acc, rfl, by simp [includeBuild]⟩
  | cons k rest ih =>
    have hk : (pdictGet? d k).isSome := h k (List.mem_cons_self _ _)
    obtain ⟨v, hv⟩ : ∃ v, pdictGet? d k = some v := by
      cases hg : pdictGet? d k
      · rw [hg] at hk
        simp at hk
      · exact ⟨_, rfl⟩
    obtain ⟨res, hres, hkeys⟩ :=
      ih (pdictSet acc k v) fun k' hk' => h k' (List.mem_cons_of_mem _ hk')
    refine ⟨res, ?_, fun x => ?_⟩
    · simp [includeBuild, hv, hres]
    · rw [hkeys x, pdictKeys_set_mem]
      simp only [List.mem_cons]
      tauto

/-- C3 counterexample: `subset(include=['a','b'])` on a dictionary whose only
key is `'a'` raises `KeyError` instead of returning an instance with key set
`{'a'} = X ∩ keys`. -/
theorem dictionary_subset_missing_include_cex :
    Dictionary.subset { contents := [(PVal.str "a", PVal.int 1)] }
        (some (PVal.plist [.astr "a", .astr "b"])) Option.none
      = .error .keyError :=
  rfl

/-- C3 (amended): `subset(include=X)` returns a new instance with key set
exactly `X ∩ keys` provided every key of X is present (otherwise it fails
with `KeyError`); `subset(exclude=Y)` returns a new instance with key set
exactly `keys − Y`; calling subset with both arguments omitted fails with
`ValueError`.  The returned instances are fresh values carrying the original
configuration; the original is untouched. -/
theorem dictionary_subset_amended (m : Dictionary) (xs ys : List PAtom)
    (hx : ∀ k ∈ xs.map PVal.atom, (pdictGet? m.contents k).isSome) :
    (∃ m', m.subset (some (.plist xs)) Option.none = .ok m'
      ∧ m'.default_factory = m.default_factory
      ∧ ∀ k, k ∈ m'.keys ↔ k ∈ xs.map PVal.atom ∧ k ∈ m.keys)
    ∧ (∃ m', m.subset Option.none (some (.plist ys)) = .ok m'
      ∧ m'.default_factory = m.default_factory
      ∧ ∀ k, k ∈ m'.keys ↔ k ∈ m.keys ∧ k ∉ ys.map PVal.atom)
    ∧ m.subset Option.none Option.none = .error .valueError := by
  refine ⟨?_, ?_, rfl⟩
  · have hxs : iterify (PVal.plist xs) = xs.map PVal.atom := rfl
    obtain ⟨res, hres, hkeys⟩ := includeBuild_keys m.contents
      (xs.map PVal.atom) [] hx
    refine ⟨{ m with contents := res }, ?_, rfl, fun k => ?_⟩
    · simp [Dictionary.subset, hxs, hres]
    · have hmem : k ∈ xs.map PVal.atom → k ∈ m.keys := fun hkx =>
        (pdictGet?_isSome_iff m.contents k).mp (hx k hkx)
      have h0 : k ∈ pdictKeys res ↔ k ∈ xs.map PVal.atom := by
        rw [hkeys k]
        simp [pdictKeys]
      show k ∈ pdictKeys res ↔ _
      rw [h0]
      exact ⟨fun h => ⟨h, hmem h⟩, fun h => h.1⟩
  · have hfe : m.subset Option.none (some (.plist ys))
        = .ok { m with contents := m.contents.filter (fun kv => ! decide (kv.1 ∈ iterify (PVal.plist ys))) } := by
      simp [Dictionary.subset]
    refine ⟨_, hfe, rfl, fun k => ?_⟩
    show k ∈ pdictKeys _ ↔ _
    rw [pdictKeys_filter_mem]
    rfl

/-- Witness for `dictionary_subset_amended`: including one present key of a
two-key dictionary keeps exactly that key. -/
theorem dictionary_subset_amended_witness :
    ∃ m', Dictionary.subset
        { contents := [(PVal.str "a", PVal.int 1), (PVal.str "c", PVal.int 3)] }
        (some (PVal.plist [.astr "a"])) Option.none = .ok m'
      ∧ PVal.str "a" ∈ m'.keys := by
  obtain ⟨m', h1, _, h3⟩ := (dictionary_subset_amended
      { contents := [(PVal.str "a", PVal.int 1), (PVal.str "c", PVal.int 3)] }
      [.astr "a"] [] (by decide)).1
  exact ⟨m', h1, (h3 (PVal.str "a")).mpr ⟨by decide, by decide⟩⟩

/-- C8: the keys and values of a `ChainDictionary` are the concatenations of
the per-layer keys and values in layer order, with cross-layer duplicates
kept at full multiplicity, and a layer inserted with `new_child` contributes
its keys and values before all prior layers'. -/
theorem chainDictionary_keys_values_concat (cd : ChainDictionary)
    (m : Dictionary) :
    (cd.new_child m).keys = m.keys ++ cd.keys
    ∧ (cd.new_child m).values = m.values ++ cd.values
    ∧ (∀ k, cd.keys.count k = (cd.contents.map fun d => d.keys.count k).sum)
    ∧ cd.keys = (cd.contents.map Dictionary.keys).flatten := by
  refine ⟨?_, ?_, fun k => ?_, rfl⟩
  · simp [ChainDictionary.new_child, ChainDictionary.keys]
  · simp [ChainDictionary.new_child, ChainDictionary.values]
  · rw [ChainDictionary.keys]
    induction cd.contents with
    | nil => simp
    | cons d rest ih => simp [List.count_append, ih]

/-- Unfolding of the wildcard test. -/
theorem isWildcard_eq_false_iff (k : PVal) :
    isWildcard k = false
      ↔ k ∉ ALL_KEYS ∧ k ∉ DEFAULT_KEYS ∧ k ∉ NONE_KEYS := by
  simp [isWildcard, and_assoc]

/-- For a non-wildcard key, `Catalog.__getitem__` with any remaining fuel is
the plain scalar lookup: the stored value (wrapped when
`always_return_list`), or `KeyError`. -/
theorem catalog_getitemAux_scalar (fuel : Nat) (c : Catalog) (a : PAtom)
    (h1 : PVal.atom a ∉ ALL_KEYS) (h2 : PVal.atom a ∉ DEFAULT_KEYS)
    (h3 : PVal.atom a ∉ NONE_KEYS) :
    Catalog.getitemAux (fuel + 1) c (.atom a)
      = match pdictGet? c.contents (.atom a) with
        | some v =>
          if c.always_return_list then .ok (.vlist [v]) else .ok (.val v)
        | Option.none => .error .keyError := by
  simp [Catalog.getitemAux, h1, h2, h3]

/-- For a non-wildcard scalar key, the Python `k in self` membership test on
a Catalog reduces to presence in the stored contents. -/
theorem catalog_containsCheck_scalar (c : Catalog) (a : PAtom)
    (h1 : PVal.atom a ∉ ALL_KEYS) (h2 : PVal.atom a ∉ DEFAULT_KEYS)
    (h3 : PVal.atom a ∉ NONE_KEYS) :
    c.containsCheck (.atom a)
      = .ok ((pdictGet? c.contents (.atom a)).isSome) := by
  have h := catalog_getitemAux_scalar 7 c a h1 h2 h3
  rw [Catalog.containsCheck, Catalog.getitem,
    show (8 : Nat) = 7 + 1 from rfl, h]
  cases hg : pdictGet? c.contents (.atom a)
  · simp
  · cases c.always_return_list <;> simp

/-- When every given key is a non-wildcard scalar and all are stored,
`all(k in self for k in keys)` yields true. -/
theorem catalog_allContains_true (c : Catalog) (ks : List PVal)
    (hk : ∀ k ∈ ks, isAtomKey k = true ∧ isWildcard k = false)
    (hall : ∀ k ∈ ks, (pdictGet? c.contents k).isSome) :
    c.allContains ks = .ok true := by
  induction ks with
  | nil => rfl
  | cons k rest ih =>
    obtain ⟨ha, hw⟩ := hk k (List.mem_cons_self _ _)
    obtain ⟨a, rfl⟩ : ∃ a, k = PVal.atom a := by
      cases k with
      | atom a => exact ⟨a, rfl⟩
      | plist xs => simp [isAtomKey] at ha
      | ptup xs => simp [isAtomKey] at ha
    obtain ⟨h1, h2, h3⟩ := (isWildcard_eq_false_iff _).mp hw
    have hc := catalog_containsCheck_scalar c a h1 h2 h3
    have hg := hall _ (List.mem_cons_self _ _)
    rw [Catalog.allContains, hc, hg]
    exact ih (fun k' hk' => hk k' (List.mem_cons_of_mem _ hk'))
      (fun k' hk' => hall k' (List.mem_cons_of_mem _ hk'))

/-- When every given key is a non-wildcard scalar and at least one is
missing, `all(k in self for k in keys)` yields false. -/
theorem catalog_allContains_false (c : Catalog) (ks : List PVal)
    (hk : ∀ k ∈ ks, isAtomKey k = true ∧ isWildcard k = false)
    (hmiss : ∃ k ∈ ks, pdictGet? c.contents k = Option.none) :
    c.allContains ks = .ok false := by
  induction ks with
  | nil => simp at hmiss
  | cons k rest ih =>
    obtain ⟨ha, hw⟩ := hk k (List.mem_cons_self _ _)
    obtain ⟨a, rfl⟩ : ∃ a, k = PVal.atom a := by
      cases k with
      | atom a => exact ⟨a, rfl⟩
      | plist xs => simp [isAtomKey] at ha
      | ptup xs => simp [isAtomKey] at ha
    obtain ⟨h1, h2, h3⟩ := (isWildcard_eq_false_iff _).mp hw
    have hc := catalog_containsCheck_scalar c a h1 h2 h3
    cases hg : pdictGet? c.contents (.atom a)
    · rw [Catalog.allContains, hc, hg]
      rfl
    · rw [Catalog.allContains, hc, hg]
      refine ih (fun k' hk' => hk k' (List.mem_cons_of_mem _ hk')) ?_
      obtain ⟨k', hk', hk'g⟩ := hmiss
      rcases List.mem_cons.mp hk' with rfl | hmem
      · rw [hg] at hk'g
        exact absurd hk'g (by simp)
      · exact ⟨k', hmem, hk'g⟩

/-- C5 counterexample: deleting the key `'all'` from a catalog that does not
store it literally neither fails with `KeyError` nor changes the contents —
the presence check `k in self` resolves `'all'` through the wildcard-aware
lookup, so the absent key counts as present. -/
theorem catalog_delete_wildcard_cex :
    Catalog.delete { contents := [(PVal.str "a", PVal.int 1)] }
        (PVal.str "all")
      = .ok { contents := [(PVal.str "a", PVal.int 1)] }
    ∧ pdictGet? [(PVal.str "a", PVal.int 1)] (PVal.str "all") = Option.none :=
  ⟨rfl, rfl⟩

/-- C5 (amended): for scalar arguments or sequences of scalar keys none of
which is a wildcard alias, `Catalog.delete` is all-or-nothing: if any given
key is absent it fails with `KeyError` (the contents are untouched, the
rebuild never runs), otherwise it removes exactly the given keys and keeps
every other binding.  Wildcard alias keys are exempt: the presence check
resolves them through the wildcard-aware lookup, so deleting one that is not
literally stored neither fails nor removes anything. -/
theorem catalog_delete_amended (c : Catalog) (item : PVal)
    (hk : ∀ k ∈ iterify item, isAtomKey k = true ∧ isWildcard k = false) :
    ((∀ k ∈ iterify item, (pdictGet? c.contents k).isSome) →
      c.delete item = .ok { c with contents := c.contents.filter (fun kv => ! decide (kv.1 ∈ iterify item)) }
      ∧ (∀ k ∈ iterify item,
          pdictGet? (c.contents.filter (fun kv => ! decide (kv.1 ∈ iterify item))) k = Option.none)
      ∧ (∀ k, k ∉ iterify item →
          pdictGet? (c.contents.filter (fun kv => ! decide (kv.1 ∈ iterify item))) k = pdictGet? c.contents k))
    ∧ ((∃ k ∈ iterify item, pdictGet? c.contents k = Option.none) →
      c.delete item = .error .keyError) := by
  constructor
  · intro hall
    refine ⟨?_, fun k hk' => pdictGet?_filter_mem _ _ _ hk',
      fun k hk' => pdictGet?_filter_not_mem _ _ _ hk'⟩
    rw [Catalog.delete, catalog_allContains_true c _ hk hall]
  · intro hmiss
    rw [Catalog.delete, catalog_allContains_false c _ hk hmiss]

/-- Witness for `catalog_delete_amended`: deleting one present key removes
exactly that binding. -/
theorem catalog_delete_amended_witness :
    Catalog.delete
        { contents := [(PVal.str "a", PVal.int 1), (PVal.str "b", PVal.int 2)] }
        (PVal.plist [.astr "a"])
      = .ok { contents := [(PVal.str "b", PVal.int 2)] } := by
  have h := ((catalog_delete_amended
      { contents := [(PVal.str "a", PVal.int 1), (PVal.str "b", PVal.int 2)] }
      (PVal.plist [.astr "a"]) (by decide)).1 (by decide)).1
  exact h

/-- A key never equals its own suffixed variant: the suffix adds at least
one character. -/
theorem suffixKey_ne (key : String) (c : Nat) : key ≠ suffixKey key c := by
  intro h
  have hl := congrArg String.length h
  rw [suffixKey, String.length_append, String.length_append] at hl
  have hu : ("_" : String).length = 1 := rfl
  omega

/-- With no collision, `uniquify` keeps the key unchanged. -/
theorem uniquify_free (key : String) (d : PDict)
    (h : pdictGet? d (.str key) = Option.none) :
    uniquify key d = key := by
  simp [uniquify, h]

/-- On a collision whose first suffixed candidate is free, `uniquify`
returns `key_2`. -/
theorem uniquify_collision (key : String) (d : PDict)
    (h : (pdictGet? d (.str key)).isSome)
    (h2 : pdictGet? d (.str (suffixKey key 2)) = Option.none) :
    uniquify key d = suffixKey key 2 := by
  rw [uniquify, if_neg (by simp [Option.isNone_iff_eq_none]; exact Option.isSome_iff_ne_none.mp h)]
  rw [List.range_succ_eq_map]
  simp [List.find?, h2]

/-- C6: with `overwrite` false, adding two items that derive the same name
`n` to a repository storing neither `n` nor `n_2` yields two distinct keys,
the second being the suffixed `n_2`; every binding under any other key is
untouched (the item is merged in, nothing is erased). -/
theorem repository_add_unique_suffix (r : Repository) (n : String)
    (hov : r.overwrite = false)
    (h1 : pdictGet? r.contents (.str n) = Option.none)
    (h2 : pdictGet? r.contents (.str (suffixKey n 2)) = Option.none) :
    pdictGet? (((r.add (.obj n) Option.none).add (.obj n) Option.none).contents)
        (.str n) = some (.obj n)
    ∧ pdictGet? (((r.add (.obj n) Option.none).add (.obj n) Option.none).contents)
        (.str (suffixKey n 2)) = some (.obj n)
    ∧ n ≠ suffixKey n 2
    ∧ (∀ k, k ≠ PVal.str n → k ≠ PVal.str (suffixKey n 2) →
        pdictGet? (((r.add (.obj n) Option.none).add (.obj n) Option.none).contents) k
          = pdictGet? r.contents k) := by
  have hns : n ≠ suffixKey n 2 := suffixKey_ne n 2
  have hvne : PVal.str (suffixKey n 2) ≠ PVal.str n := by
    intro h
    simp only [PVal.str, PVal.atom.injEq, PAtom.astr.injEq] at h
    exact hns h.symm
  have hname : namify (PVal.obj n) = n := rfl
  have e1 : r.addKey (.obj n) Option.none = n := by
    rw [Repository.addKey, if_neg (by rw [hov]; exact Bool.false_ne_true)]
    simpa [hname] using uniquify_free n r.contents h1
  have hc1 : (r.add (.obj n) Option.none).contents
      = pdictSet r.contents (.str n) (.obj n) := by
    rw [Repository.add, e1]
  have hov1 : (r.add (.obj n) Option.none).overwrite = false := hov
  have hpres : (pdictGet? (pdictSet r.contents (.str n) (.obj n)) (.str n)).isSome := by
    rw [pdictGet?_set_self]
    rfl
  have hfree2 : pdictGet? (pdictSet r.contents (.str n) (.obj n))
      (.str (suffixKey n 2)) = Option.none := by
    rw [pdictGet?_set_ne _ _ _ _ hvne, h2]
  have e2 : (r.add (.obj n) Option.none).addKey (.obj n) Option.none
      = suffixKey n 2 := by
    rw [Repository.addKey, if_neg (by rw [hov1]; exact Bool.false_ne_true)]
    rw [hc1]
    simpa [hname] using uniquify_collision n _ hpres hfree2
  have hc2 : ((r.add (.obj n) Option.none).add (.obj n) Option.none).contents
      = pdictSet (pdictSet r.contents (.str n) (.obj n))
          (.str (suffixKey n 2)) (.obj n) := by
    rw [Repository.add, e2, hc1]
  refine ⟨?_, ?_, hns, ?_⟩
  · rw [hc2, pdictGet?_set_ne _ _ _ _ (fun h => hvne h.symm),
      pdictGet?_set_self]
  · rw [hc2, pdictGet?_set_self]
  · intro k hkn hk2
    rw [hc2, pdictGet?_set_ne _ _ _ _ hk2, pdictGet?_set_ne _ _ _ _ hkn]

/-- Witness for `repository_add_unique_suffix`: adding two objects named
`third` to a repository holding one unrelated key stores them under
`third` and `third_2`. -/
theorem repository_add_unique_suffix_witness :
    pdictGet? ((({ contents := [(PVal.str "x", PVal.int 0)] } : Repository).add
        (PVal.obj "third") Option.none |>.add (PVal.obj "third")
        Option.none).contents) (PVal.str "third_2")
      = some (PVal.obj "third") := by
  have h := (repository_add_unique_suffix
      { contents := [(PVal.str "x", PVal.int 0)] } "third" rfl (by decide)
      (by decide)).2.1
  exact h

/-- C7: looking a non-wildcard list of keys up in a Catalog returns the list
of stored values for exactly the keys that are present, in the order given,
silently skipping missing keys, and never errors. -/
theorem catalog_getitem_batch (c : Catalog) (ks : List PAtom)
    (hw : isWildcard (.plist ks) = false) :
    c.getitem (.plist ks)
      = .ok (.vlist (ks.filterMap fun k => pdictGet? c.contents (.atom k))) := by
  obtain ⟨h1, h2, h3⟩ := (isWildcard_eq_false_iff _).mp hw
  rw [Catalog.getitem, show (8 : Nat) = 7 + 1 from rfl]
  simp [Catalog.getitemAux, h1, h2, h3]

/-- Witness for `catalog_getitem_batch`: one missing key among three is
silently skipped, the two present values come back in the given order. -/
theorem catalog_getitem_batch_witness :
    Catalog.getitem
        { contents := [(PVal.str "k1", PVal.int 1), (PVal.str "k2", PVal.int 2)] }
        (PVal.plist [.astr "k1", .astr "zz", .astr "k2"])
      = .ok (.vlist [PVal.int 1, PVal.int 2]) := by
  have h := catalog_getitem_batch
      { contents := [(PVal.str "k1", PVal.int 1), (PVal.str "k2", PVal.int 2)] }
      [.astr "k1", .astr "zz", .astr "k2"] (by decide)
  exact h

/-- C10: `parents` keeps every layer after the first — the same layer
objects, positionally shifted by one, with no copy applied — carries over the
original's `default_factory`, and always has `return_first = true` (the flag
is not passed to the constructor), whatever the original's setting was. -/
theorem chainDictionary_parents_spec (cd : ChainDictionary) :
    (cd.parents).contents = cd.contents.tail
    ∧ (∀ i, (cd.parents).contents.get? i = cd.contents.get? (i + 1))
    ∧ (cd.parents).default_factory = cd.default_factory
    ∧ (cd.parents).return_first = true := by
  obtain ⟨cs, df, rf⟩ := cd
  refine ⟨?_, ?_, rfl, rfl⟩
  · cases cs <;> rfl
  · intro i
    cases cs <;> simp [ChainDictionary.parents]

end Camina
